import Mathlib

/-!
# Verification of the x-digest core pipeline

A shallow embedding, in Lean 4, of the pure core of the `x_digest` Python
package (`src/x_digest/classify.py`, `presummary.py`, `images.py`,
`digest.py`, `models.py`), together with theorems settling the behavioural
claims of the specification against the code.

Modelling conventions:
* Python `str` values are modelled as `List Char`: Python strings are
  sequences of Unicode code points, so `len` is `List.length`, slicing is
  `take`/`drop`, and `str.startswith` is `List.isPrefixOf`.
* Python `int` is `Int` (or `Nat` where the quantity is a count/length).
* Python `None`-able values are `Option`; Python truthiness tests on
  strings/lists (`if x:`) are modelled as the corresponding
  non-`None`-and-nonempty tests, exactly where the source uses them.
* Python dict-shaped configuration is modelled by structures of `Option`
  fields; `dict.get(key, default)` is `Option.getD`.
* `datetime` parsing (`utils.parse_twitter_date` feeding the sort key of
  `reconstruct_threads`) is abstracted as a parameter
  `parse : List Char → Option Nat`: the grouping/sorting logic depends on
  it only through success (`some`, a totally ordered key) versus raising
  (`none`).  The Python `sorted` builtin is a stable sort; it is modelled by
  `List.mergeSort`, which is also stable.
* LLM providers are abstracted as functions returning `Except Unit`
  values: `.error` models a raised `LLMError`.
* `datetime.now(UTC).strftime(...)` is abstracted as an explicit
  `date_str` parameter.
-/

/-- Convert a Lean string literal to the `List Char` model of Python `str`. -/
def chars (s : String) : List Char := s.toList

/-- The ASCII whitespace characters stripped by Python `str.strip` /
`lstrip` / `rstrip` (the Unicode-only space code points are not modelled). -/
def pyIsSpace (c : Char) : Bool :=
  c = ' ' || c = '\t' || c = '\n' || c = '\r' || c = '\x0b' || c = '\x0c'

/-- Python `s.lstrip()`. -/
def pyLstrip (s : List Char) : List Char := s.dropWhile pyIsSpace

/-- Python `s.rstrip()`. -/
def pyRstrip (s : List Char) : List Char := (s.reverse.dropWhile pyIsSpace).reverse

/-- Python `s.strip()`. -/
def pyStrip (s : List Char) : List Char := pyRstrip (pyLstrip s)

/-- Python `str(n)` for a natural number. -/
def natChars (n : Nat) : List Char := (toString n).toList

/-- Python `str(i)` for an integer. -/
def intChars (i : Int) : List Char := (toString i).toList

/-- `models.Author`: tweet author information (`username`, `name`). -/
structure Author where
  username : List Char
  name : List Char
deriving DecidableEq

/-- `models.Media`: a media attachment (photo or video) of a tweet. -/
structure Media where
  type : List Char
  url : List Char
  width : Int
  height : Int
  preview_url : List Char
  video_url : Option (List Char) := none
  duration_ms : Option Int := none
deriving DecidableEq

/-- `models.Tweet`: a tweet with all relevant metadata.  `quoted_tweet` is a
self-referential optional field, so the model is an inductive type rather
than a structure. -/
inductive Tweet where
  | mk
      (id : List Char)
      (text : List Char)
      (created_at : List Char)
      (conversation_id : List Char)
      (author : Author)
      (author_id : List Char)
      (reply_count : Int)
      (retweet_count : Int)
      (like_count : Int)
      (media : Option (List Media))
      (quoted_tweet : Option Tweet)
      (in_reply_to_status_id : Option (List Char))

/-- Field projection `tweet.id`. -/
def Tweet.id : Tweet → List Char
  | .mk i _ _ _ _ _ _ _ _ _ _ _ => i

/-- Field projection `tweet.text`. -/
def Tweet.text : Tweet → List Char
  | .mk _ t _ _ _ _ _ _ _ _ _ _ => t

/-- Field projection `tweet.created_at`. -/
def Tweet.created_at : Tweet → List Char
  | .mk _ _ c _ _ _ _ _ _ _ _ _ => c

/-- Field projection `tweet.conversation_id`. -/
def Tweet.conversation_id : Tweet → List Char
  | .mk _ _ _ c _ _ _ _ _ _ _ _ => c

/-- Field projection `tweet.author`. -/
def Tweet.author : Tweet → Author
  | .mk _ _ _ _ a _ _ _ _ _ _ _ => a

/-- Field projection `tweet.author_id`. -/
def Tweet.author_id : Tweet → List Char
  | .mk _ _ _ _ _ a _ _ _ _ _ _ => a

/-- Field projection `tweet.reply_count`. -/
def Tweet.reply_count : Tweet → Int
  | .mk _ _ _ _ _ _ r _ _ _ _ _ => r

/-- Field projection `tweet.retweet_count`. -/
def Tweet.retweet_count : Tweet → Int
  | .mk _ _ _ _ _ _ _ r _ _ _ _ => r

/-- Field projection `tweet.like_count`. -/
def Tweet.like_count : Tweet → Int
  | .mk _ _ _ _ _ _ _ _ l _ _ _ => l

/-- Field projection `tweet.media`. -/
def Tweet.media : Tweet → Option (List Media)
  | .mk _ _ _ _ _ _ _ _ _ m _ _ => m

/-- Field projection `tweet.quoted_tweet`. -/
def Tweet.quoted_tweet : Tweet → Option Tweet
  | .mk _ _ _ _ _ _ _ _ _ _ q _ => q

/-- Field projection `tweet.in_reply_to_status_id`. -/
def Tweet.in_reply_to_status_id : Tweet → Option (List Char)
  | .mk _ _ _ _ _ _ _ _ _ _ _ r => r

/-- `models.calculate_content_length`: total character length of a tweet
including its quoted content, used for pre-summarization thresholds. -/
def calculate_content_length (t : Tweet) : Nat :=
  t.text.length + (match t.quoted_tweet with | some q => q.text.length | none => 0)

/-- `models.get_engagement_score`: `likes + 2 * retweets + replies`. -/
def get_engagement_score (t : Tweet) : Int :=
  t.like_count + t.retweet_count * 2 + t.reply_count

/-- `classify.TweetType`: the five classification variants. -/
inductive TweetType where
  | standalone
  | thread
  | quote
  | reply
  | retweet
deriving DecidableEq

/-- `classify.classify_tweet`: retweet if the text starts with `"RT @"`,
else quote if `quoted_tweet` is not `None`, else reply if
`in_reply_to_status_id` is not `None`, else standalone. -/
def classify_tweet (t : Tweet) : TweetType :=
  if (chars "RT @").isPrefixOf t.text then .retweet
  else if t.quoted_tweet.isSome then .quote
  else if t.in_reply_to_status_id.isSome then .reply
  else .standalone

/-- `classify.classify_thread_completeness`.  Note the Python truthiness
test `if tweet.in_reply_to_status_id:`—a reply id that is `None` **or the
empty string** is skipped when collecting gaps. -/
def classify_thread_completeness (thread : List Tweet) : List Char :=
  if thread.isEmpty then chars "complete"
  else if thread.length = 1 then chars "complete"
  else
    let has_root := thread.any fun t => t.id == t.conversation_id
    if !has_root then chars "partial_no_root"
    else
      let tweet_ids := thread.map Tweet.id
      let gaps := thread.filterMap fun t =>
        match t.in_reply_to_status_id with
        | some r => if r.isEmpty then none
                    else if tweet_ids.contains r then none else some r
        | none => none
      if gaps.isEmpty then chars "complete" else chars "partial_with_root"

/-- `classify.dedupe_quotes`: drop every batch entry whose own `id` occurs
as the `id` of a tweet quoted by some member of the same batch. -/
def dedupe_quotes (tweets : List Tweet) : List Tweet :=
  let tweet_ids_in_batch := tweets.map Tweet.id
  let quoted_ids := tweets.filterMap fun t =>
    match t.quoted_tweet with
    | some q => if tweet_ids_in_batch.contains q.id then some q.id else none
    | none => none
  tweets.filter fun t => !(quoted_ids.contains t.id)

/-- Helper for `classify.reconstruct_threads`: one step of the grouping
loop—append `t` to the (insertion-ordered) bucket of conversation id `c`,
creating the bucket at the end if absent, exactly as the Python loop does
on an insertion-ordered `dict`. -/
def insertTweet : List (List Char × List Tweet) → List Char → Tweet →
    List (List Char × List Tweet)
  | [], c, t => [(c, [t])]
  | (k, g) :: rest, c, t =>
    if k = c then (k, g ++ [t]) :: rest else (k, g) :: insertTweet rest c t

/-- The grouping phase of `classify.reconstruct_threads` (the first `for`
loop): buckets keyed by `conversation_id` in first-appearance order. -/
def groupByConv (tweets : List Tweet) : List (List Char × List Tweet) :=
  tweets.foldl (fun acc t => insertTweet acc t.conversation_id t) []

/-- Sort key of `reconstruct_threads`: `parse_twitter_date(t.created_at)`,
abstracted by the `parse` parameter (`none` models a raised exception). -/
def sortKey (parse : List Char → Option Nat) (t : Tweet) : Nat :=
  (parse t.created_at).getD 0

/-- The sorting phase of `classify.reconstruct_threads` for one bucket:
the stable Python `sorted(..., key=parse_twitter_date∘created_at)` inside
`try`, with the original order kept when any key computation raises
(the `except: pass` fallback). -/
def sortThread (parse : List Char → Option Nat) (l : List Tweet) : List Tweet :=
  if l.all (fun t => (parse t.created_at).isSome) then
    l.mergeSort fun a b => sortKey parse a ≤ sortKey parse b
  else l

/-- `classify.reconstruct_threads`: group by `conversation_id` (insertion
order) and sort each bucket chronologically, falling back to the original
order when date parsing fails. -/
def reconstruct_threads (parse : List Char → Option Nat) (tweets : List Tweet) :
    List (List Char × List Tweet) :=
  (groupByConv tweets).map fun cg => (cg.1, sortThread parse cg.2)

/-- The `pre_summarization` sub-dictionary of the configuration
(`presummary._get_default_presummary_config` lists its keys); `none`
models an absent key, read through `dict.get(key, default)`. -/
structure PresumConfig where
  enabled : Option Bool := none
  long_tweet_chars : Option Int := none
  long_quote_chars : Option Int := none
  long_combined_chars : Option Int := none
  thread_min_tweets : Option Int := none
  max_summary_tokens : Option Int := none
deriving DecidableEq

/-- The configuration keys consumed by the embedded functions
(`list_name`, `display_name`, `emoji`, `pre_summarization`).  Keys feeding
only the LLM payload/system prompt are irrelevant to the modelled
behaviour and omitted. -/
structure Config where
  list_name : Option (List Char) := none
  display_name : Option (List Char) := none
  emoji : Option (List Char) := none
  pre_summarization : Option PresumConfig := none
deriving DecidableEq

/-- `config.get("pre_summarization", {})`. -/
def Config.presum (c : Config) : PresumConfig := c.pre_summarization.getD {}

/-- `presummary.should_presummary` on a single tweet: strict `>` against
`long_tweet_chars` (default 500), `long_quote_chars` (default 300) for a
present quote, and `long_combined_chars` (default 600) for the combined
length. -/
def should_presummary (t : Tweet) (config : Config) : Bool :=
  let pc := config.presum
  if (t.text.length : Int) > pc.long_tweet_chars.getD 500 then true
  else if (match t.quoted_tweet with
           | some q => decide ((q.text.length : Int) > pc.long_quote_chars.getD 300)
           | none => false) then true
  else if (calculate_content_length t : Int) > pc.long_combined_chars.getD 600 then true
  else false

/-- `presummary.should_presummary` on a thread (list) argument: true when
`len(content) >= thread_min_tweets` (default 2); a single-member list
degrades to the single-tweet rule; otherwise false. -/
def should_presummary_list (content : List Tweet) (config : Config) : Bool :=
  let pc := config.presum
  if (content.length : Int) ≥ pc.thread_min_tweets.getD 2 then true
  else if content.length = 1 then
    match content with
    | [t] => should_presummary t config
    | _ => false
  else false

/-- `images.PrioritizedImage`: an image with prioritization metadata. -/
structure PrioritizedImage where
  tweet_id : List Char
  url : List Char
  type : List Char
  engagement : Int
  is_video_preview : Bool := false
deriving DecidableEq

/-- `images.MAX_IMAGES = MAX_IMAGE_TOKENS // TOKENS_PER_IMAGE = 30000 // 1900`. -/
def MAX_IMAGES : Nat := 30000 / 1900

/-- `images.MAX_IMAGES_PER_TWEET`. -/
def MAX_IMAGES_PER_TWEET : Nat := 3

/-- Comparison used by both `sort(key=..., reverse=True)` calls in
`images.prioritize_images`: descending engagement.  The Python sort is
stable and `reverse=True` does not reverse ties, which matches a stable
`mergeSort` with this relation. -/
def engGe (a b : PrioritizedImage) : Bool := b.engagement ≤ a.engagement

/-- The per-tweet candidate extraction of `images.prioritize_images`:
photos contribute their full-size `url`, videos their `preview_url`
(flagged `is_video_preview`), any other media type is skipped. -/
def tweetImageCandidates (t : Tweet) : List PrioritizedImage :=
  (t.media.getD []).filterMap fun m =>
    if m.type = chars "photo" then
      some { tweet_id := t.id, url := m.url, type := m.type,
             engagement := get_engagement_score t }
    else if m.type = chars "video" then
      some { tweet_id := t.id, url := m.preview_url, type := m.type,
             engagement := get_engagement_score t, is_video_preview := true }
    else none

/-- The pooling loop of `images.prioritize_images`: each tweet with media
contributes its candidates, sorted by the engagement of that tweet and capped
at `max_per_tweet`.  A tweet whose `media` is `None` or `[]` contributes
nothing (`if not tweet.media: continue`), which coincides with
`media.getD [] = []`. -/
def prioritizedImagesPool (tweets : List Tweet) (max_per_tweet : Nat) :
    List PrioritizedImage :=
  tweets.flatMap fun t => ((tweetImageCandidates t).mergeSort engGe).take max_per_tweet

/-- The final selection of `images.prioritize_images`: global sort by
engagement descending, capped at `max_total` (the local variable
`selected_images` of the source). -/
def selected_images (tweets : List Tweet) (max_total max_per_tweet : Nat) :
    List PrioritizedImage :=
  ((prioritizedImagesPool tweets max_per_tweet).mergeSort engGe).take max_total

/-- `images.prioritize_images`: the selection projected to
`(tweet_id, url)` pairs. -/
def prioritize_images (tweets : List Tweet) (max_total max_per_tweet : Nat) :
    List (List Char × List Char) :=
  (selected_images tweets max_total max_per_tweet).map fun img => (img.tweet_id, img.url)

/-- `digest.MIN_TWEETS_FOR_LLM`. -/
def MIN_TWEETS_FOR_LLM : Nat := 5

/-- `digest.MAX_MESSAGE_LENGTH`. -/
def MAX_MESSAGE_LENGTH : Nat := 4000

/-- The default emoji literal of `digest.py` (`config.get("emoji", ...)`).
The source file stores a mojibake rendering of the clipboard emoji; the
four code points below are exactly the characters of that Python string
literal. -/
def defaultEmoji : List Char := chars "ğŸ“‹"

/-- `digest.format_empty_digest`: the fixed quiet-period template.  The
`â€”` and `ğŸ“­` runs are the literal
(mojibake) code points of the em-dash and mailbox emoji of the source file. -/
def format_empty_digest (list_name : List Char) (config : Config)
    (date_str : List Char) : List Char :=
  let emoji := config.emoji.getD defaultEmoji
  let display_name := config.display_name.getD list_name
  emoji ++ chars " *" ++ display_name ++ chars " Digest* â€” " ++
    date_str ++
    chars "\n\nğŸ“­ *Quiet period* â€” No new tweets since last digest."

/-- `digest.format_sparse_digest`: the deterministic bullet-list template
for small batches (no LLM).  Bullet `â€¢`, heart
`â¤ï¸` and dot `Â·` are the literal code
points of the source file. -/
def format_sparse_digest (tweets : List Tweet) (config : Config)
    (date_str : List Char) : List Char :=
  let emoji := config.emoji.getD defaultEmoji
  let display_name := config.display_name.getD (config.list_name.getD (chars "List"))
  let header : List (List Char) :=
    [ emoji ++ chars " *" ++ display_name ++ chars " Digest* â€” " ++ date_str,
      [],
      emoji ++ chars " *" ++ natChars tweets.length ++ chars " tweets since last digest:*",
      [] ]
  let body : List (List Char) := tweets.flatMap fun t =>
    [ chars "â€¢ @" ++ t.author.username ++ chars ": " ++
        t.text.take 100 ++ (if t.text.length > 100 then chars "..." else []),
      chars "  " ++ intChars t.like_count ++
        chars " â¤ï¸ Â· https://x.com/" ++
        t.author.username ++ chars "/status/" ++ t.id,
      [] ]
  List.intercalate (chars "\n") (header ++ body)

/-- `digest.generate_digest`.  The LLM provider call
`llm_provider.generate(payload, system=..., images=...)` is abstracted by
its outcome `llm_result` (`.error` = a raised `LLMError`); the payload and
system prompt flow only into that call, so they do not appear here.  The
returned `Bool` records whether the LLM rung was reached (i.e. whether
`generate` was called). -/
def generate_digest (tweets : List Tweet) (config : Config)
    (llm_result : Except Unit (List Char)) (date_str : List Char) :
    List Char × Bool :=
  let list_name := config.list_name.getD (chars "Unknown List")
  if tweets.length = 0 then
    (format_empty_digest list_name config date_str, false)
  else if tweets.length < MIN_TWEETS_FOR_LLM then
    (format_sparse_digest tweets config date_str, false)
  else
    match llm_result with
    | .ok digest => (pyStrip digest, true)
    | .error _ => (format_sparse_digest tweets config date_str, true)

/-- One entry of the `sections` configuration list, as consumed by
`digest.split_digest` (`section.get("emoji")`). -/
structure SectionCfg where
  emoji : Option (List Char) := none
deriving DecidableEq

/-- Python `s.rfind(sub, 0, stop)`, as an `Option`: the greatest index at
which `sub` occurs entirely inside `s[0:stop]` (`none` models `-1`). -/
def pyRfind (s sub : List Char) (stop : Nat) : Option Nat :=
  let w := s.take stop
  ((List.range (w.length + 1)).filter fun i => sub.isPrefixOf (w.drop i)).getLast?

/-- Python `s[:k]` for a possibly negative `k`. -/
def pySliceTo (s : List Char) (k : Int) : List Char :=
  if 0 ≤ k then s.take k.toNat else s.take (s.length - (-k).toNat)

/-- Python `s[k:]` for a possibly negative `k`. -/
def pySliceFrom (s : List Char) (k : Int) : List Char :=
  if 0 ≤ k then s.drop k.toNat else s.drop (s.length - (-k).toNat)

/-- The split-marker list built by `digest.split_digest`: two markers per
configured section emoji (skipping falsy emojis), then the generic
fallbacks.  A `None` or empty `sections` contributes nothing
(`if sections:`). -/
def splitMarkers (sections : Option (List SectionCfg)) : List (List Char) :=
  (match sections with
   | some secs => secs.flatMap fun s =>
       match s.emoji with
       | some e =>
           if e.isEmpty then []
           else [chars "\n\n" ++ e, chars "\n\n## " ++ e]
       | none => []
   | none => []) ++
  [chars "\n\n## ", chars "\n\n*", chars "\n\n"]

/-- The marker search in the loop body of `digest.split_digest`: the first
marker (in priority order) whose right-most occurrence in the window has
index `> 0` (an index of `0`, like `-1`, is rejected and the next marker
is tried). -/
def findSplit (markers : List (List Char)) (remaining : List Char)
    (max_length : Nat) : Option Nat :=
  markers.findSome? fun marker =>
    match pyRfind remaining marker max_length with
    | some idx => if 0 < idx then some idx else none
    | none => none

/-- The `while len(remaining) > max_length` loop of `digest.split_digest`,
including the trailing `if remaining: parts.append(remaining)`.  The loop
does not terminate for some inputs when `max_length ≤ 10` (the emergency
cut `max_length - 10` then fails to shrink `remaining`), so the model is
fuelled: `none` means the Python loop would still be running. -/
def splitLoop (markers : List (List Char)) (max_length : Nat) :
    Nat → List Char → List (List Char) → Option (List (List Char))
  | 0, _, _ => none
  | fuel+1, remaining, parts =>
    if remaining.length ≤ max_length then
      some (parts ++ (if remaining.isEmpty then [] else [remaining]))
    else
      let split_at : Int :=
        match findSplit markers remaining max_length with
        | some idx => (idx : Int)
        | none => (max_length : Int) - 10
      splitLoop markers max_length fuel
        (pyLstrip (pySliceFrom remaining split_at))
        (parts ++ [pyRstrip (pySliceTo remaining split_at)])

/-- The final step of `digest.split_digest`: append the
`f"\n\n_({i+1}/{total})_"` part indicator to every part when the split
produced more than one part. -/
def addPartIndicators (parts : List (List Char)) : List (List Char) :=
  if parts.length > 1 then
    parts.enum.map fun ip =>
      ip.2 ++ chars "\n\n_(" ++ natChars (ip.1 + 1) ++ chars "/" ++
        natChars parts.length ++ chars ")_"
  else parts

/-- `digest.split_digest`: single part when the text already fits,
otherwise the fuelled splitting loop followed by part indicators. -/
def split_digest (fuel : Nat) (digest : List Char) (max_length : Nat)
    (sections : Option (List SectionCfg)) : Option (List (List Char)) :=
  if digest.length ≤ max_length then some [digest]
  else (splitLoop (splitMarkers sections) max_length fuel digest []).map addPartIndicators

/-- Python `s.count(sub)` helper: fuelled scan counting non-overlapping
occurrences left to right. -/
def pyCountAux (sub : List Char) : Nat → List Char → Nat
  | 0, _ => 0
  | fuel+1, s =>
    if sub.isPrefixOf s then
      pyCountAux sub fuel (s.drop sub.length) + 1
    else
      match s with
      | [] => 0
      | _ :: rest => pyCountAux sub fuel rest

/-- Python `s.count(sub)`: `s.length + 1` fuel always suffices (each step
either consumes at least one character or, for the empty pattern, mirrors
the Python result `len(s) + 1`). -/
def pyCount (s sub : List Char) : Nat := pyCountAux sub (s.length + 1) s

/-- `presummary.build_presummary_prompt`: the deterministic prompt
template (the source literal is pure ASCII). -/
def build_presummary_prompt (content : List Char) (content_type : List Char)
    (author : List Char) : List Char :=
  let char_count := content.length
  let length_desc :=
    if content_type = chars "thread" then
      natChars char_count ++ chars " chars / " ++
        natChars (pyCount content (chars "\n---\n") + 1) ++ chars " tweets"
    else
      natChars char_count ++ chars " chars"
  chars "You are summarizing Twitter content for a digest. Preserve the key insights in detail.\n\nCONTENT TYPE: " ++
    content_type ++
    chars "\nAUTHOR: @" ++ author ++
    chars "\nORIGINAL LENGTH: " ++ length_desc ++
    chars "\n\nCONTENT:\n" ++ content ++
    chars "\n\nINSTRUCTIONS:\n- Write 2 paragraphs (4-6 sentences total)\n- First paragraph: core message, main argument, key claims\n- Second paragraph: supporting details, specific numbers, recommendations, implications\n- Preserve the author\x27s perspective and tone\n- Keep technical details if present\n- Note what\x27s opinion vs fact where relevant\n\nOUTPUT: Just the summary, no preamble."

/-- Post-processing of an LLM generation result, shared by
`presummary._summarize_single_tweet` and `_summarize_thread`:
a raised `LLMError` (`.error`) yields `None`, a falsy (empty) result
yields `None`, otherwise the stripped text
(`summary.strip() if summary else None`). -/
def llmSummaryResult (r : Except Unit (List Char)) : Option (List Char) :=
  match r with
  | .error _ => none
  | .ok s => if s.isEmpty then none else some (pyStrip s)

/-- `presummary._summarize_single_tweet`: build the (quote-aware) content
and prompt, call the provider with an empty system prompt, and translate
failure to `None`. -/
def summarize_single_tweet (llm : List Char → List Char → Except Unit (List Char))
    (t : Tweet) : Option (List Char) :=
  let content := t.text ++
    (match t.quoted_tweet with
     | some q => chars "\n\nQUOTED CONTENT:\n" ++ q.text ++
         chars "\n(Originally by @" ++ q.author.username ++ chars ")"
     | none => [])
  let content_type := match t.quoted_tweet with
    | some _ => chars "quote_chain"
    | none => chars "long_tweet"
  llmSummaryResult (llm (build_presummary_prompt content content_type t.author.username) [])

/-- `presummary._summarize_thread`: numbered, `\n---\n`-joined thread
content, author taken from the first member (`thread[0]`, total here via `headD`—the
function is only ever applied to non-empty buckets). -/
def summarize_thread (llm : List Char → List Char → Except Unit (List Char))
    (thread : List Tweet) : Option (List Char) :=
  let content := List.intercalate (chars "\n---\n")
    ((List.enumFrom 1 thread).map fun it =>
      chars "Tweet " ++ natChars it.1 ++ chars ": " ++ it.2.text)
  let author := (thread.map fun t => t.author.username).headD []
  llmSummaryResult (llm (build_presummary_prompt content (chars "thread") author) [])

/-- The per-bucket body of the loop in `presummary.presummary_tweets`: a
single-member bucket uses the single-tweet rule; a multi-member bucket
needing pre-summarization gets one thread summary applied identically to
every member; otherwise every member gets `None`. -/
def presummaryGroup (llm : List Char → List Char → Except Unit (List Char))
    (config : Config) (thread : List Tweet) : List (Tweet × Option (List Char)) :=
  if thread.length = 1 then
    thread.map fun t =>
      (t, if should_presummary t config then summarize_single_tweet llm t else none)
  else if should_presummary_list thread config then
    let thread_summary := summarize_thread llm thread
    thread.map fun t => (t, thread_summary)
  else
    thread.map fun t => (t, none)

/-- `presummary.presummary_tweets`: when pre-summarization is disabled
(`enabled` defaulting to true) every tweet is paired with `None`;
otherwise threads are reconstructed and each bucket processed in
insertion order. -/
def presummary_tweets (parse : List Char → Option Nat)
    (llm : List Char → List Char → Except Unit (List Char))
    (config : Config) (tweets : List Tweet) : List (Tweet × Option (List Char)) :=
  if !(config.presum.enabled.getD true) then
    tweets.map fun t => (t, none)
  else
    (reconstruct_threads parse tweets).flatMap fun cg => presummaryGroup llm config cg.2

/-- C9: `classify` is total and returns exactly one of the five variants,
by first-match precedence: retweet on the literal `"RT @"` prefix,
otherwise quote when a quoted tweet is present, otherwise reply when an
in-reply-to id is present, otherwise standalone; the retweet check wins
even when the other conditions hold simultaneously. -/
theorem classify_tweet_first_match (t : Tweet) :
    (classify_tweet t = .retweet ∨ classify_tweet t = .quote ∨
     classify_tweet t = .reply ∨ classify_tweet t = .standalone ∨
     classify_tweet t = .thread) ∧
    ((chars "RT @").isPrefixOf t.text = true → classify_tweet t = .retweet) ∧
    ((chars "RT @").isPrefixOf t.text = false → t.quoted_tweet.isSome = true →
      classify_tweet t = .quote) ∧
    ((chars "RT @").isPrefixOf t.text = false → t.quoted_tweet = none →
      t.in_reply_to_status_id.isSome = true → classify_tweet t = .reply) ∧
    ((chars "RT @").isPrefixOf t.text = false → t.quoted_tweet = none →
      t.in_reply_to_status_id = none → classify_tweet t = .standalone) := by
  unfold classify_tweet
  refine ⟨?_, ?_, ?_, ?_, ?_⟩
  · split
    · exact Or.inl rfl
    split
    · exact Or.inr (Or.inl rfl)
    split
    · exact Or.inr (Or.inr (Or.inl rfl))
    · exact Or.inr (Or.inr (Or.inr (Or.inl rfl)))
  all_goals intros; simp_all

/-- Witness for C9: a tweet that simultaneously has the `"RT @"` prefix, a
quoted tweet and an in-reply-to id is classified as a retweet. -/
def tweetC9 : Tweet :=
  .mk (chars "9") (chars "RT @x hello") [] (chars "9") ⟨chars "a", chars "A"⟩
    (chars "10") 0 0 0 none
    (some (.mk (chars "q") (chars "qq") [] (chars "q") ⟨chars "b", chars "B"⟩
      (chars "11") 0 0 0 none none none))
    (some (chars "7"))

/-- Witness instantiation of `classify_tweet_first_match`. -/
theorem classify_tweet_first_match_witness :
    (chars "RT @").isPrefixOf tweetC9.text = true ∧ classify_tweet tweetC9 = .retweet :=
  ⟨by decide, (classify_tweet_first_match tweetC9).2.1 (by decide)⟩

/-- C3 (amended): `should_presummary` on an empty thread list returns
false for every configuration whose `thread_min_tweets` (default 2) is at
least 1.  (For `thread_min_tweets ≤ 0` the code returns true, since
`len([]) >= thread_min_tweets` holds—see the counterexample.) -/
theorem should_presummary_empty_thread_false (config : Config)
    (h : 1 ≤ config.presum.thread_min_tweets.getD 2) :
    should_presummary_list [] config = false := by
  have h0 : ¬ (((([] : List Tweet).length : Int)) ≥ config.presum.thread_min_tweets.getD 2) := by
    simp only [List.length_nil, Int.natCast_zero]
    omega
  simp [should_presummary_list, h0]
  omega

/-- Witness instantiation of `should_presummary_empty_thread_false` at the
empty (all-defaults) configuration. -/
theorem should_presummary_empty_thread_false_witness :
    1 ≤ ({} : Config).presum.thread_min_tweets.getD 2 ∧
    should_presummary_list [] {} = false :=
  ⟨by decide, should_presummary_empty_thread_false {} (by decide)⟩

/-- Configuration refuting C3 as stated: `thread_min_tweets` set to 0. -/
def configC3 : Config := { pre_summarization := some { thread_min_tweets := some 0 } }

/-- Counterexample to C3 as stated: with `thread_min_tweets = 0` the code
returns true on an empty thread list (`len([]) >= 0`), not false. -/
theorem should_presummary_empty_thread_cex :
    configC3.presum.thread_min_tweets.getD 2 = 0 ∧
    should_presummary_list [] configC3 = true := by
  constructor
  · rfl
  · rfl

/-- C7 (amended): `should_presummary` on a single tweet is true iff
`len(text) > long_tweet_chars` (default 500), or a quote is present with
`len(quoted.text) > long_quote_chars` (default 300), or the combined
length exceeds `long_combined_chars` (default 600)—all strict.  A plain
tweet of exactly `long_tweet_chars` characters is false **provided**
`long_tweet_chars ≤ long_combined_chars` (true of the defaults; otherwise
the combined test can fire—see the counterexample); one of
`long_tweet_chars + 1` characters is always true. -/
theorem should_presummary_single_iff (t : Tweet) (config : Config) :
    (should_presummary t config = true ↔
      ((t.text.length : Int) > config.presum.long_tweet_chars.getD 500 ∨
       (∃ q, t.quoted_tweet = some q ∧
         (q.text.length : Int) > config.presum.long_quote_chars.getD 300) ∨
       (calculate_content_length t : Int) > config.presum.long_combined_chars.getD 600)) ∧
    (t.quoted_tweet = none →
      config.presum.long_tweet_chars.getD 500 ≤ config.presum.long_combined_chars.getD 600 →
      (t.text.length : Int) = config.presum.long_tweet_chars.getD 500 →
      should_presummary t config = false) ∧
    ((t.text.length : Int) = config.presum.long_tweet_chars.getD 500 + 1 →
      should_presummary t config = true) := by
  refine ⟨?_, ?_, ?_⟩
  · cases hq : t.quoted_tweet with
    | none => simp [should_presummary, hq]
    | some q =>
      simp only [should_presummary, hq]
      by_cases h1 : (t.text.length : Int) > config.presum.long_tweet_chars.getD 500 <;>
        by_cases h2 : (q.text.length : Int) > config.presum.long_quote_chars.getD 300 <;>
        by_cases h3 :
          (calculate_content_length t : Int) > config.presum.long_combined_chars.getD 600 <;>
        simp [h1, h2, h3]
  · intro hq hle hlen
    have hc : (calculate_content_length t : Int) = (t.text.length : Int) := by
      simp [calculate_content_length, hq]
    simp only [should_presummary, hq, hc, hlen]
    have h1 : ¬ (config.presum.long_tweet_chars.getD 500 >
        config.presum.long_tweet_chars.getD 500) := by omega
    have h3 : ¬ (config.presum.long_tweet_chars.getD 500 >
        config.presum.long_combined_chars.getD 600) := by omega
    simp [h1, h3]
  · intro hlen
    have h1 : (t.text.length : Int) > config.presum.long_tweet_chars.getD 500 := by omega
    simp [should_presummary, h1]

/-- Witness instantiation of `should_presummary_single_iff`: with the
default configuration, a plain 500-character tweet is not pre-summarized
and a plain 501-character tweet is. -/
def tweet500 : Tweet :=
  .mk (chars "500") (List.replicate 500 'a') [] (chars "500")
    ⟨chars "u", chars "U"⟩ (chars "1") 0 0 0 none none none

/-- A plain 501-character tweet, for the witness. -/
def tweet501 : Tweet :=
  .mk (chars "501") (List.replicate 501 'a') [] (chars "501")
    ⟨chars "u", chars "U"⟩ (chars "1") 0 0 0 none none none

set_option maxRecDepth 4000 in
/-- Witness instantiation of `should_presummary_single_iff` at the default
configuration and the boundary lengths. -/
theorem should_presummary_single_iff_witness :
    tweet500.quoted_tweet = none ∧
    (tweet500.text.length : Int) = ({} : Config).presum.long_tweet_chars.getD 500 ∧
    should_presummary tweet500 {} = false ∧
    (tweet501.text.length : Int) = ({} : Config).presum.long_tweet_chars.getD 500 + 1 ∧
    should_presummary tweet501 {} = true :=
  ⟨rfl, by rw [show tweet500.text = List.replicate 500 'a' from rfl,
        List.length_replicate]; rfl,
    (should_presummary_single_iff tweet500 {}).2.1 rfl (by decide)
      (by rw [show tweet500.text = List.replicate 500 'a' from rfl,
        List.length_replicate]; rfl),
    by rw [show tweet501.text = List.replicate 501 'a' from rfl,
        List.length_replicate]; rfl,
    (should_presummary_single_iff tweet501 {}).2.2
      (by rw [show tweet501.text = List.replicate 501 'a' from rfl,
        List.length_replicate]; rfl)⟩

/-- Configuration refuting the boundary sentence of C7 as universally
quantified: `long_combined_chars` below `long_tweet_chars`. -/
def configC7 : Config :=
  { pre_summarization := some { long_tweet_chars := some 7, long_combined_chars := some 5 } }

/-- A plain tweet of exactly `long_tweet_chars = 7` characters under
`configC7`. -/
def tweetC7 : Tweet :=
  .mk (chars "7") (chars "aaaaaaa") [] (chars "7") ⟨chars "u", chars "U"⟩
    (chars "1") 0 0 0 none none none

/-- Counterexample to C7 as stated: under a configuration with
`long_tweet_chars = 7` and `long_combined_chars = 5`, a plain tweet of
exactly `long_tweet_chars` characters is pre-summarized (the combined
check fires), contradicting the claimed boundary behaviour for every
configuration. -/
theorem should_presummary_boundary_cex :
    tweetC7.quoted_tweet = none ∧
    (tweetC7.text.length : Int) = configC7.presum.long_tweet_chars.getD 500 ∧
    should_presummary tweetC7 configC7 = true := by
  refine ⟨rfl, by decide, rfl⟩

/-- C4: the exclusive policy ladder of `generate_digest`: zero tweets give
the quiet-period template with no LLM call; fewer than
`MIN_TWEETS_FOR_LLM = 5` give the sparse bullet-list template with no LLM
call; otherwise the LLM is called and its trimmed output returned, an
`LLMError` falling back to the same sparse template. -/
theorem generate_digest_policy_ladder (tweets : List Tweet) (config : Config)
    (llm_result : Except Unit (List Char)) (date_str : List Char) :
    (tweets.length = 0 →
      generate_digest tweets config llm_result date_str =
        (format_empty_digest (config.list_name.getD (chars "Unknown List")) config date_str,
          false)) ∧
    (0 < tweets.length → tweets.length < MIN_TWEETS_FOR_LLM →
      generate_digest tweets config llm_result date_str =
        (format_sparse_digest tweets config date_str, false)) ∧
    (MIN_TWEETS_FOR_LLM ≤ tweets.length →
      (∀ s, llm_result = .ok s →
        generate_digest tweets config llm_result date_str = (pyStrip s, true)) ∧
      (∀ e, llm_result = .error e →
        generate_digest tweets config llm_result date_str =
          (format_sparse_digest tweets config date_str, true))) := by
  refine ⟨?_, ?_, ?_⟩
  · intro h0
    simp [generate_digest, h0]
  · intro h1 h2
    have h0 : ¬ tweets.length = 0 := by omega
    simp [generate_digest, h0, h2]
  · intro h5
    have h0 : ¬ tweets.length = 0 := by
      unfold MIN_TWEETS_FOR_LLM at h5; omega
    have h2 : ¬ tweets.length < MIN_TWEETS_FOR_LLM := by omega
    constructor
    · intro s hs
      simp [generate_digest, h0, h2, hs]
    · intro e he
      simp [generate_digest, h0, h2, he]

/-- A concrete tweet used by the C4 witness. -/
def tweetC4 : Tweet :=
  .mk (chars "44") (chars "hello world") [] (chars "44") ⟨chars "u", chars "U"⟩
    (chars "1") 1 2 3 none none none

/-- Witness instantiation of `generate_digest_policy_ladder`: the empty
batch yields the quiet-period template without calling the LLM, and a
single-tweet batch yields the sparse template without calling the LLM. -/
theorem generate_digest_policy_ladder_witness :
    ([] : List Tweet).length = 0 ∧
    generate_digest [] {} (.error ()) (chars "Feb 04, 2026") =
      (format_empty_digest (chars "Unknown List") {} (chars "Feb 04, 2026"), false) ∧
    0 < [tweetC4].length ∧ [tweetC4].length < MIN_TWEETS_FOR_LLM ∧
    generate_digest [tweetC4] {} (.error ()) (chars "Feb 04, 2026") =
      (format_sparse_digest [tweetC4] {} (chars "Feb 04, 2026"), false) :=
  ⟨rfl,
    (generate_digest_policy_ladder [] {} (.error ()) (chars "Feb 04, 2026")).1 rfl,
    by decide, by decide,
    (generate_digest_policy_ladder [tweetC4] {} (.error ()) (chars "Feb 04, 2026")).2.1
      (by decide) (by decide)⟩

/-- The removal condition of `dedupe_quotes`: id `i` is referenced as
`quoted_tweet.id` by a batch member and belongs to a batch member. -/
def quotedInBatch (tweets : List Tweet) (i : List Char) : Prop :=
  ∃ u ∈ tweets, u.quoted_tweet.map Tweet.id = some i ∧ i ∈ tweets.map Tweet.id

instance (tweets : List Tweet) (i : List Char) : Decidable (quotedInBatch tweets i) := by
  unfold quotedInBatch
  infer_instance

/-- Membership characterisation of `dedupe_quotes`: an entry survives iff
its own id is not a batch-quoted id. -/
theorem mem_dedupe_quotes (tweets : List Tweet) (t : Tweet) :
    t ∈ dedupe_quotes tweets ↔ t ∈ tweets ∧ ¬ quotedInBatch tweets t.id := by
  have hkey : ∀ i : List Char,
      (i ∈ tweets.filterMap fun u =>
        match u.quoted_tweet with
        | some q => if q.id ∈ tweets.map Tweet.id then some q.id else none
        | none => none) ↔ quotedInBatch tweets i := by
    intro i
    simp only [List.mem_filterMap, quotedInBatch]
    constructor
    · rintro ⟨u, hu, hmatch⟩
      refine ⟨u, hu, ?_⟩
      cases hqq : u.quoted_tweet with
      | none => rw [hqq] at hmatch; cases hmatch
      | some q =>
        rw [hqq] at hmatch
        dsimp only at hmatch
        split at hmatch
        · next hc =>
          cases hmatch
          exact ⟨rfl, hc⟩
        · cases hmatch
    · rintro ⟨u, hu, hsome, hin⟩
      refine ⟨u, hu, ?_⟩
      cases hqq : u.quoted_tweet with
      | none => rw [hqq] at hsome; cases hsome
      | some q =>
        rw [hqq] at hsome
        simp only [Option.map_some'] at hsome
        cases hsome
        dsimp only
        rw [if_pos hin]
  unfold dedupe_quotes
  simp only [List.mem_filter, List.contains, List.elem_eq_mem, decide_eq_true_eq,
    Bool.not_eq_true', decide_eq_false_iff_not]
  rw [hkey]

/-- C6 (amended): `dedupe_quotes` keeps exactly the entries whose own id
is not referenced as a batch-member quote (`quoted_tweet.id` with the
quoted id present in the batch).  Consequently, when tweet `a` quotes
tweet `b`, both are in the input, **and the id of `a` is not itself quoted
by a batch member**, then `b` is absent from the output and `a` is
present.  (Without the extra proviso the claim fails for mutually-quoting
pairs—see the counterexample.) -/
theorem dedupe_quotes_removes_quoted (tweets : List Tweet) :
    (∀ t, t ∈ dedupe_quotes tweets ↔ t ∈ tweets ∧ ¬ quotedInBatch tweets t.id) ∧
    (∀ a b, a ∈ tweets → b ∈ tweets →
      a.quoted_tweet.map Tweet.id = some b.id →
      ¬ quotedInBatch tweets a.id →
      b ∉ dedupe_quotes tweets ∧ a ∈ dedupe_quotes tweets) := by
  refine ⟨mem_dedupe_quotes tweets, ?_⟩
  intro a b ha hb hq hnq
  constructor
  · intro hbmem
    rcases (mem_dedupe_quotes tweets b).1 hbmem with ⟨-, hno⟩
    exact hno ⟨a, ha, hq, List.mem_map_of_mem Tweet.id hb⟩
  · exact (mem_dedupe_quotes tweets a).2 ⟨ha, hnq⟩

/-- The embedded copy of the quoted tweet `b` inside `a`, for the C6
witness. -/
def tweetBquoted : Tweet :=
  .mk (chars "2") (chars "b text") [] (chars "2") ⟨chars "bb", chars "B"⟩
    (chars "1") 0 0 0 none none none

/-- A tweet `a` (id 1) quoting the tweet with id 2. -/
def tweetAq : Tweet :=
  .mk (chars "1") (chars "a text") [] (chars "1") ⟨chars "aa", chars "A"⟩
    (chars "1") 0 0 0 none (some tweetBquoted) none

/-- A standalone tweet with id 2 (the batch entry for the quoted tweet). -/
def tweetBplain : Tweet :=
  .mk (chars "2") (chars "b text") [] (chars "2") ⟨chars "bb", chars "B"⟩
    (chars "1") 0 0 0 none none none

/-- Witness instantiation of `dedupe_quotes_removes_quoted`: `a` quotes
`b`, both in the batch, nothing quotes `a`, so `b` is removed and `a`
kept. -/
theorem dedupe_quotes_removes_quoted_witness :
    tweetAq ∈ [tweetAq, tweetBplain] ∧ tweetBplain ∈ [tweetAq, tweetBplain] ∧
    tweetAq.quoted_tweet.map Tweet.id = some tweetBplain.id ∧
    ¬ quotedInBatch [tweetAq, tweetBplain] tweetAq.id ∧
    tweetBplain ∉ dedupe_quotes [tweetAq, tweetBplain] ∧
    tweetAq ∈ dedupe_quotes [tweetAq, tweetBplain] :=
  ⟨List.mem_cons_self _ _, List.mem_cons_of_mem _ (List.mem_cons_self _ _), rfl,
    by decide,
    (dedupe_quotes_removes_quoted [tweetAq, tweetBplain]).2 tweetAq tweetBplain
      (List.mem_cons_self _ _) (List.mem_cons_of_mem _ (List.mem_cons_self _ _)) rfl
      (by decide)⟩

/-- A tweet with id 1 quoting id 2, for the mutual-quote counterexample. -/
def tweetMutA : Tweet :=
  .mk (chars "1") (chars "a text") [] (chars "1") ⟨chars "aa", chars "A"⟩
    (chars "1") 0 0 0 none
    (some (.mk (chars "2") (chars "b text") [] (chars "2") ⟨chars "bb", chars "B"⟩
      (chars "1") 0 0 0 none none none)) none

/-- A tweet with id 2 quoting id 1, for the mutual-quote counterexample. -/
def tweetMutB : Tweet :=
  .mk (chars "2") (chars "b text") [] (chars "2") ⟨chars "bb", chars "B"⟩
    (chars "1") 0 0 0 none
    (some (.mk (chars "1") (chars "a text") [] (chars "1") ⟨chars "aa", chars "A"⟩
      (chars "1") 0 0 0 none none none)) none

/-- Counterexample to C6 as stated: with mutually quoting tweets `a`
(id 1, quoting id 2) and `b` (id 2, quoting id 1) both in the batch,
`dedupe_quotes` removes **both**—so "A is present with its quote intact"
fails even though A quotes B and both are in the input. -/
theorem dedupe_quotes_mutual_quote_cex :
    tweetMutA ∈ [tweetMutA, tweetMutB] ∧ tweetMutB ∈ [tweetMutA, tweetMutB] ∧
    tweetMutA.quoted_tweet.map Tweet.id = some tweetMutB.id ∧
    dedupe_quotes [tweetMutA, tweetMutB] = [] ∧
    tweetMutA ∉ dedupe_quotes [tweetMutA, tweetMutB] := by
  refine ⟨List.mem_cons_self _ _, List.mem_cons_of_mem _ (List.mem_cons_self _ _),
    rfl, rfl, ?_⟩
  intro h
  rw [show dedupe_quotes [tweetMutA, tweetMutB] = [] from rfl] at h
  exact absurd h (List.not_mem_nil _)

/-- C5 (amended): thread completeness classification: empty or single
tweet gives "complete"; with at least two tweets and no root
(`id == conversation_id`) gives "partial_no_root"; with a root it gives
"partial_with_root" exactly when some member has a **nonempty**
`in_reply_to_status_id` that is not the id of any member, and "complete"
otherwise.  (The Python truthiness test skips an empty-string reply id,
so the unqualified claim wording (any in_reply_to id) fails at the
empty string—see the counterexample.) -/
theorem classify_thread_completeness_cases (thread : List Tweet) :
    (thread.length ≤ 1 → classify_thread_completeness thread = chars "complete") ∧
    (2 ≤ thread.length →
      ((∀ t ∈ thread, t.id ≠ t.conversation_id) →
        classify_thread_completeness thread = chars "partial_no_root") ∧
      ((∃ t ∈ thread, t.id = t.conversation_id) →
        ((classify_thread_completeness thread = chars "partial_with_root" ↔
            ∃ t ∈ thread, ∃ r, t.in_reply_to_status_id = some r ∧ r ≠ [] ∧
              r ∉ thread.map Tweet.id) ∧
         (classify_thread_completeness thread = chars "complete" ↔
            ¬ ∃ t ∈ thread, ∃ r, t.in_reply_to_status_id = some r ∧ r ≠ [] ∧
              r ∉ thread.map Tweet.id)))) := by
  have hne : chars "complete" ≠ chars "partial_with_root" := by decide
  refine ⟨?_, ?_⟩
  · intro h1
    match thread, h1 with
    | [], _ => rfl
    | [a], _ => rfl
  · intro h2
    have hne0 : thread.isEmpty = false := by
      cases thread with
      | nil => simp at h2
      | cons a l => rfl
    have hne1 : ¬ thread.length = 1 := by omega
    have hgap : ∀ t : Tweet,
        ((match t.in_reply_to_status_id with
          | some r => if r.isEmpty then none
                      else if (thread.map Tweet.id).contains r then none else some r
          | none => none) = none) ↔
        ¬ ∃ r, t.in_reply_to_status_id = some r ∧ r ≠ [] ∧ r ∉ thread.map Tweet.id := by
      intro t
      cases hr : t.in_reply_to_status_id with
      | none =>
        constructor
        · rintro - ⟨r', hr', -, -⟩
          exact Option.noConfusion hr'
        · intro _; rfl
      | some r =>
        dsimp only
        by_cases hre : r.isEmpty
        · rw [if_pos hre]
          have hrnil : r = [] := List.isEmpty_iff.1 hre
          constructor
          · rintro - ⟨r', hr', hne', -⟩
            cases hr'
            exact hne' hrnil
          · intro _; rfl
        · have hrne : r ≠ [] := fun h => hre (by simp [h])
          rw [if_neg hre]
          by_cases hc : (thread.map Tweet.id).contains r
          · rw [if_pos hc]
            have hmem : r ∈ thread.map Tweet.id := by
              simpa [List.contains, List.elem_iff] using hc
            constructor
            · rintro - ⟨r', hr', -, hnm⟩
              cases hr'
              exact hnm hmem
            · intro _; rfl
          · rw [if_neg hc]
            have hmem : r ∉ thread.map Tweet.id := fun h =>
              hc (by simpa [List.contains, List.elem_iff] using h)
            constructor
            · intro h; cases h
            · intro hn
              exact absurd ⟨r, rfl, hrne, hmem⟩ hn
    have hiff : ((thread.filterMap fun t =>
        match t.in_reply_to_status_id with
        | some r => if r.isEmpty then none
                    else if (thread.map Tweet.id).contains r then none else some r
        | none => none).isEmpty = true) ↔
        ¬ ∃ t ∈ thread, ∃ r, t.in_reply_to_status_id = some r ∧ r ≠ [] ∧
          r ∉ thread.map Tweet.id := by
      rw [List.isEmpty_iff, List.filterMap_eq_nil_iff]
      constructor
      · rintro hall ⟨t, ht, hex⟩
        exact ((hgap t).1 (hall t ht)) hex
      · intro hnone t ht
        rw [hgap t]
        intro hex
        exact hnone ⟨t, ht, hex⟩
    constructor
    · intro hroot
      have hany : (thread.any fun t => t.id == t.conversation_id) = false := by
        rw [List.any_eq_false]
        intro t ht
        simpa using hroot t ht
      simp [classify_thread_completeness, hne0, hne1, hany]
    · intro hroot
      have hany : (thread.any fun t => t.id == t.conversation_id) = true := by
        rw [List.any_eq_true]
        rcases hroot with ⟨t, ht, he⟩
        exact ⟨t, ht, by simpa using he⟩
      unfold classify_thread_completeness
      rw [if_neg (by simp [hne0]), if_neg hne1]
      simp only [hany, Bool.not_true]
      rw [if_neg (by simp : ¬ ((false : Bool) = true))]
      by_cases hg : (thread.filterMap fun t =>
          match t.in_reply_to_status_id with
          | some r => if r.isEmpty then none
                      else if (thread.map Tweet.id).contains r then none else some r
          | none => none).isEmpty
      · rw [if_pos hg]
        exact ⟨⟨fun h => absurd h hne, fun hex => absurd hex (hiff.1 hg)⟩,
               ⟨fun _ => hiff.1 hg, fun _ => rfl⟩⟩
      · rw [if_neg hg]
        have hex : ∃ t ∈ thread, ∃ r, t.in_reply_to_status_id = some r ∧ r ≠ [] ∧
            r ∉ thread.map Tweet.id := by
          by_contra hn
          exact hg (hiff.2 hn)
        exact ⟨⟨fun _ => hex, fun _ => rfl⟩,
               ⟨fun h => absurd h.symm hne, fun hn => absurd hex hn⟩⟩

/-- The root tweet (id 1 = conversation id) for the C5 witness and
counterexample threads. -/
def tweetRootC5 : Tweet :=
  .mk (chars "1") (chars "root") [] (chars "1") ⟨chars "u", chars "U"⟩
    (chars "1") 0 0 0 none none none

/-- A reply tweet whose parent (id 99) is outside the thread. -/
def tweetGapC5 : Tweet :=
  .mk (chars "2") (chars "reply") [] (chars "1") ⟨chars "u", chars "U"⟩
    (chars "1") 0 0 0 none none (some (chars "99"))

/-- Witness instantiation of `classify_thread_completeness_cases`: a
two-tweet thread with a root and a reply to a missing parent is
"partial_with_root". -/
theorem classify_thread_completeness_cases_witness :
    2 ≤ [tweetRootC5, tweetGapC5].length ∧
    classify_thread_completeness [tweetRootC5, tweetGapC5] = chars "partial_with_root" :=
  ⟨by decide,
    (((classify_thread_completeness_cases [tweetRootC5, tweetGapC5]).2
      (by decide)).2 ⟨tweetRootC5, List.mem_cons_self _ _, rfl⟩).1.mpr
      ⟨tweetGapC5, List.mem_cons_of_mem _ (List.mem_cons_self _ _),
        chars "99", rfl, by decide, by decide⟩⟩

/-- A reply tweet whose `in_reply_to_status_id` is the empty string. -/
def tweetEmptyReplyC5 : Tweet :=
  .mk (chars "2") (chars "reply") [] (chars "1") ⟨chars "u", chars "U"⟩
    (chars "1") 0 0 0 none none (some [])

/-- Counterexample to C5 as stated: a two-tweet thread with a root and a
member whose `in_reply_to_status_id` is the empty string—which is not the
id of any member, so the claim requires "partial_with_root"—is classified
"complete" (the Python test `if tweet.in_reply_to_status_id:` skips the falsy
empty string). -/
theorem classify_thread_completeness_empty_reply_cex :
    2 ≤ [tweetRootC5, tweetEmptyReplyC5].length ∧
    (∃ t ∈ [tweetRootC5, tweetEmptyReplyC5], t.id = t.conversation_id) ∧
    (∃ t ∈ [tweetRootC5, tweetEmptyReplyC5], ∃ r, t.in_reply_to_status_id = some r ∧
      ∀ u ∈ [tweetRootC5, tweetEmptyReplyC5], u.id ≠ r) ∧
    classify_thread_completeness [tweetRootC5, tweetEmptyReplyC5] = chars "complete" := by
  refine ⟨by decide, ⟨tweetRootC5, List.mem_cons_self _ _, rfl⟩,
    ⟨tweetEmptyReplyC5, List.mem_cons_of_mem _ (List.mem_cons_self _ _), [], rfl, ?_⟩,
    rfl⟩
  intro u hu
  rcases List.mem_cons.1 hu with h | h
  · subst h; decide
  · rcases List.mem_cons.1 h with h2 | h2
    · subst h2; decide
    · exact absurd h2 (List.not_mem_nil u)

/-- Stripping trailing whitespace never lengthens a string. -/
theorem pyRstrip_length_le (s : List Char) : (pyRstrip s).length ≤ s.length := by
  unfold pyRstrip
  calc (s.reverse.dropWhile pyIsSpace).reverse.length
      = (s.reverse.dropWhile pyIsSpace).length := List.length_reverse _
    _ ≤ s.reverse.length := (List.dropWhile_sublist pyIsSpace).length_le
    _ = s.length := List.length_reverse _

/-- A successful `rfind` within `s[0:stop]` returns an index of at most `stop`. -/
theorem pyRfind_le_stop {s sub : List Char} {stop i : Nat}
    (h : pyRfind s sub stop = some i) : i ≤ stop := by
  unfold pyRfind at h
  have hmem := List.mem_of_getLast?_eq_some h
  rw [List.mem_filter] at hmem
  have hr := List.mem_range.1 hmem.1
  have : i ≤ (s.take stop).length := by omega
  calc i ≤ (s.take stop).length := this
    _ ≤ stop := by rw [List.length_take]; omega

/-- A successful marker search returns a positive index within the window. -/
theorem findSplit_bounds {markers : List (List Char)} {remaining : List Char}
    {max_length i : Nat} (h : findSplit markers remaining max_length = some i) :
    0 < i ∧ i ≤ max_length := by
  unfold findSplit at h
  obtain ⟨m, -, hm⟩ := List.exists_of_findSome?_eq_some h
  cases hfind : pyRfind remaining m max_length with
  | none => rw [hfind] at hm; cases hm
  | some j =>
    rw [hfind] at hm
    dsimp only at hm
    by_cases hj : 0 < j
    · rw [if_pos hj] at hm
      cases hm
      exact ⟨hj, pyRfind_le_stop hfind⟩
    · rw [if_neg hj] at hm
      cases hm

/-- Invariant of the splitting loop: provided `max_length > 10` (so the
emergency cut is positive), every part it emits has length at most
`max_length`. -/
theorem splitLoop_parts_le {markers : List (List Char)} {max_length : Nat}
    (hml : 10 < max_length) :
    ∀ (fuel : Nat) (remaining : List Char) (parts res : List (List Char)),
      (∀ p ∈ parts, p.length ≤ max_length) →
      splitLoop markers max_length fuel remaining parts = some res →
      ∀ p ∈ res, p.length ≤ max_length := by
  intro fuel
  induction fuel with
  | zero => intro remaining parts res hparts hres; cases hres
  | succ n ih =>
    intro remaining parts res hparts hres
    unfold splitLoop at hres
    by_cases hlen : remaining.length ≤ max_length
    · rw [if_pos hlen] at hres
      cases hres
      intro p hp
      rcases List.mem_append.1 hp with h | h
      · exact hparts p h
      · by_cases he : remaining.isEmpty
        · rw [if_pos he] at h; cases h
        · rw [if_neg he] at h
          rcases List.mem_singleton.1 h with rfl
          exact hlen
    · rw [if_neg hlen] at hres
      refine ih _ _ _ ?_ hres
      intro p hp
      rcases List.mem_append.1 hp with h | h
      · exact hparts p h
      · rcases List.mem_singleton.1 h with rfl
        cases hsplit : findSplit markers remaining max_length with
        | some idx =>
          dsimp only
          obtain ⟨hpos, hle⟩ := findSplit_bounds hsplit
          have : pySliceTo remaining (idx : Int) = remaining.take idx := by
            unfold pySliceTo
            rw [if_pos (by omega : (0:Int) ≤ (idx : Int))]
            simp
          rw [this]
          calc (pyRstrip (remaining.take idx)).length
              ≤ (remaining.take idx).length := pyRstrip_length_le _
            _ ≤ idx := by rw [List.length_take]; omega
            _ ≤ max_length := hle
        | none =>
          dsimp only
          have hpos : (0:Int) ≤ (max_length : Int) - 10 := by omega
          have : pySliceTo remaining ((max_length : Int) - 10) =
              remaining.take ((max_length : Int) - 10).toNat := by
            unfold pySliceTo
            rw [if_pos hpos]
          rw [this]
          calc (pyRstrip (remaining.take ((max_length : Int) - 10).toNat)).length
              ≤ (remaining.take ((max_length : Int) - 10).toNat).length :=
                pyRstrip_length_le _
            _ ≤ ((max_length : Int) - 10).toNat := by rw [List.length_take]; omega
            _ ≤ max_length := by omega

/-- C1 (amended): for `max_length > 10`, whenever `split_digest` returns,
every returned part consists of a core of length at most `max_length`
(the `raws`), to which the `(i/total)` indicator is then appended when
there are several parts.  The bound **includes** the indicator only in
the single-part case; a multi-part result may exceed `max_length` by the
indicator length (see the counterexample), because the source splits
against the full `max_length` and appends the indicator afterwards.  For
`max_length ≤ 10` the emergency cut `max_length - 10` is non-positive and
the loop can fail to shrink `remaining` (non-termination, `none` in the
fuelled model). -/
theorem split_digest_parts_fit_excluding_indicator
    (fuel : Nat) (digest : List Char) (max_length : Nat)
    (sections : Option (List SectionCfg)) (h : 10 < max_length) :
    ∀ parts, split_digest fuel digest max_length sections = some parts →
      (digest.length ≤ max_length → parts = [digest]) ∧
      (max_length < digest.length →
        ∃ raws, splitLoop (splitMarkers sections) max_length fuel digest [] = some raws ∧
          parts = addPartIndicators raws ∧
          ∀ r ∈ raws, r.length ≤ max_length) := by
  intro parts hparts
  unfold split_digest at hparts
  by_cases hlen : digest.length ≤ max_length
  · rw [if_pos hlen] at hparts
    cases hparts
    exact ⟨fun _ => rfl, fun hgt => absurd hgt (by omega)⟩
  · rw [if_neg hlen] at hparts
    constructor
    · intro hle
      exact absurd hle hlen
    · intro _
      cases hloop : splitLoop (splitMarkers sections) max_length fuel digest [] with
      | none => rw [hloop] at hparts; cases hparts
      | some raws =>
        rw [hloop] at hparts
        simp only [Option.map_some'] at hparts
        cases hparts
        exact ⟨raws, rfl, rfl,
          splitLoop_parts_le h fuel digest [] raws (by intro p hp; cases hp) hloop⟩

/-- A 21-character digest whose split at `max_length = 20` overflows. -/
def cexDigestC1 : List Char := chars "aaaaaaaaaaaaaaa\n\nbbbb"

/-- The parts `split_digest` produces for `cexDigestC1` at limit 20. -/
def cexPartsC1 : List (List Char) :=
  [chars "aaaaaaaaaaaaaaa\n\n_(1/2)_", chars "bbbb\n\n_(2/2)_"]

/-- Witness instantiation of
`split_digest_parts_fit_excluding_indicator` at the concrete digest. -/
theorem split_digest_parts_fit_excluding_indicator_witness :
    10 < 20 ∧
    ((cexDigestC1.length ≤ 20 → cexPartsC1 = [cexDigestC1]) ∧
     (20 < cexDigestC1.length →
       ∃ raws, splitLoop (splitMarkers none) 20 100 cexDigestC1 [] = some raws ∧
         cexPartsC1 = addPartIndicators raws ∧ ∀ r ∈ raws, r.length ≤ 20)) :=
  ⟨by decide,
    split_digest_parts_fit_excluding_indicator 100 cexDigestC1 20 none (by decide)
      cexPartsC1 (by decide)⟩

/-- Counterexample to C1 as stated: at `max_length = 20` (positive) the
first returned part, indicator included, has length 24 > 20. -/
theorem split_digest_exceeds_max_length_cex :
    0 < 20 ∧
    split_digest 100 cexDigestC1 20 none = some cexPartsC1 ∧
    chars "aaaaaaaaaaaaaaa\n\n_(1/2)_" ∈ cexPartsC1 ∧
    (chars "aaaaaaaaaaaaaaa\n\n_(1/2)_").length = 24 :=
  ⟨by decide, by decide, by decide, by decide⟩

/-- Specification helper: the bucket contents contributed by an accumulator entry and the remaining filtered tweets. -/
def mergeOpt : Option (List Tweet) → List Tweet → Option (List Tweet)
  | some g, l => some (g ++ l)
  | none, [] => none
  | none, l => some l

/-- `insertTweet` appends to the looked-up bucket (creating it if absent). -/
theorem lookup_insertTweet (acc : List (List Char × List Tweet)) (k : List Char)
    (t : Tweet) (c : List Char) :
    (insertTweet acc k t).lookup c =
      if c = k then some (((acc.lookup c).getD []) ++ [t]) else acc.lookup c := by
  induction acc with
  | nil =>
    by_cases h : c = k
    · subst h
      simp [insertTweet, List.lookup]
    · simp [insertTweet, List.lookup, h, beq_false_of_ne h]
  | cons kg rest ih =>
    obtain ⟨k', g⟩ := kg
    by_cases hk : k' = k
    · subst hk
      by_cases hc : c = k'
      · subst hc
        simp [insertTweet, List.lookup]
      · simp [insertTweet, List.lookup, beq_false_of_ne hc, hc]
    · rw [show insertTweet ((k', g) :: rest) k t = (k', g) :: insertTweet rest k t by
        simp [insertTweet, hk]]
      by_cases hc : c = k'
      · subst hc
        rw [if_neg hk]
        simp [List.lookup]
      · simp only [List.lookup, beq_false_of_ne hc]
        exact ih

/-- The grouping fold extends each bucket by the filtered remaining tweets. -/
theorem lookup_groupFold (tweets : List Tweet) :
    ∀ (acc : List (List Char × List Tweet)) (c : List Char),
      ((tweets.foldl (fun acc t => insertTweet acc t.conversation_id t) acc).lookup c) =
        mergeOpt (acc.lookup c) (tweets.filter fun t => t.conversation_id == c) := by
  induction tweets with
  | nil =>
    intro acc c
    simp only [List.foldl_nil, List.filter_nil]
    cases acc.lookup c with
    | none => rfl
    | some g => simp [mergeOpt]
  | cons t ts ih =>
    intro acc c
    simp only [List.foldl_cons]
    rw [ih]
    by_cases hc : t.conversation_id = c
    · rw [lookup_insertTweet, if_pos hc.symm]
      rw [List.filter_cons_of_pos (by simpa using hc)]
      cases hl : acc.lookup c with
      | none => simp [mergeOpt]
      | some g => simp [mergeOpt]
    · rw [lookup_insertTweet, if_neg (fun h => hc h.symm)]
      rw [List.filter_cons_of_neg (by simpa using hc)]

/-- Each `groupByConv` bucket is exactly the conversation-filtered input, in order. -/
theorem lookup_groupByConv (tweets : List Tweet) (c : List Char) :
    (groupByConv tweets).lookup c =
      mergeOpt none (tweets.filter fun t => t.conversation_id == c) := by
  unfold groupByConv
  rw [lookup_groupFold]
  rfl

/-- `insertTweet` appends a new key at the end or leaves keys unchanged. -/
theorem keys_insertTweet (acc : List (List Char × List Tweet)) (k : List Char) (t : Tweet) :
    (insertTweet acc k t).map Prod.fst =
      if k ∈ acc.map Prod.fst then acc.map Prod.fst else acc.map Prod.fst ++ [k] := by
  induction acc with
  | nil => simp [insertTweet]
  | cons kg rest ih =>
    obtain ⟨k', g⟩ := kg
    by_cases hk : k' = k
    · subst hk
      simp [insertTweet]
    · rw [show insertTweet ((k', g) :: rest) k t = (k', g) :: insertTweet rest k t by
        simp [insertTweet, hk]]
      simp only [List.map_cons, ih]
      by_cases hmem : k ∈ rest.map Prod.fst
      · rw [if_pos hmem, if_pos (by simp [hmem])]
      · rw [if_neg hmem, if_neg ?hcond]
        · simp
        case hcond =>
          simp only [List.mem_cons]
          rintro (h | h)
          · exact hk h.symm
          · exact hmem h

/-- The grouping fold preserves distinctness of bucket keys. -/
theorem keys_groupFold (tweets : List Tweet) :
    ∀ acc : List (List Char × List Tweet), (acc.map Prod.fst).Nodup →
      ((tweets.foldl (fun acc t => insertTweet acc t.conversation_id t) acc).map
        Prod.fst).Nodup := by
  induction tweets with
  | nil => intro acc h; simpa using h
  | cons t ts ih =>
    intro acc h
    simp only [List.foldl_cons]
    apply ih
    rw [keys_insertTweet]
    by_cases hmem : t.conversation_id ∈ acc.map Prod.fst
    · rw [if_pos hmem]; exact h
    · rw [if_neg hmem]
      simp [List.nodup_append, h, hmem]

/-- `insertTweet` adds exactly one tweet to the multiset of bucketed tweets. -/
theorem joinVals_insertTweet (acc : List (List Char × List Tweet)) (k : List Char)
    (t : Tweet) :
    ((insertTweet acc k t).flatMap Prod.snd).Perm ((acc.flatMap Prod.snd) ++ [t]) := by
  induction acc with
  | nil => simp [insertTweet]
  | cons kg rest ih =>
    obtain ⟨k', g⟩ := kg
    by_cases hk : k' = k
    · subst hk
      show ((if k' = k' then (k', g ++ [t]) :: rest else
        (k', g) :: insertTweet rest k' t).flatMap Prod.snd).Perm _
      rw [if_pos rfl]
      simp only [List.flatMap_cons]
      rw [List.append_assoc, List.append_assoc]
      exact List.Perm.append_left g List.perm_append_comm
    · rw [show insertTweet ((k', g) :: rest) k t = (k', g) :: insertTweet rest k t by
        simp [insertTweet, hk]]
      simp only [List.flatMap_cons]
      refine List.Perm.trans (List.Perm.append_left g ih) ?_
      rw [List.append_assoc]

/-- The grouping fold bucketizes exactly the input tweets (as a multiset). -/
theorem joinVals_groupFold (tweets : List Tweet) :
    ∀ acc : List (List Char × List Tweet),
      ((tweets.foldl (fun acc t => insertTweet acc t.conversation_id t) acc).flatMap
        Prod.snd).Perm ((acc.flatMap Prod.snd) ++ tweets) := by
  induction tweets with
  | nil => intro acc; simp
  | cons t ts ih =>
    intro acc
    simp only [List.foldl_cons]
    refine List.Perm.trans (ih _) ?_
    refine List.Perm.trans (List.Perm.append_right ts (joinVals_insertTweet acc _ t)) ?_
    rw [List.append_assoc]
    simp

/-- With distinct keys, association-list membership coincides with lookup. -/
theorem mem_iff_lookup {l : List (List Char × List Tweet)}
    (hnd : (l.map Prod.fst).Nodup) (c : List Char) (g : List Tweet) :
    (c, g) ∈ l ↔ l.lookup c = some g := by
  induction l with
  | nil => simp [List.lookup]
  | cons kg rest ih =>
    obtain ⟨k', g'⟩ := kg
    simp only [List.map_cons, List.nodup_cons] at hnd
    by_cases hc : c = k'
    · subst hc
      simp only [List.lookup, beq_self_eq_true, if_pos, List.mem_cons]
      constructor
      · rintro (h | h)
        · cases h; rfl
        · exact absurd (List.mem_map_of_mem Prod.fst h) hnd.1
      · rintro h
        cases h
        exact Or.inl rfl
    · simp only [List.lookup, beq_false_of_ne hc, List.mem_cons]
      rw [← ih hnd.2]
      constructor
      · rintro (h | h)
        · cases h; exact absurd rfl hc
        · exact h
      · exact Or.inr

/-- Mapping a function over bucket values commutes with lookup. -/
theorem lookup_map_value (l : List (List Char × List Tweet))
    (f : List Tweet → List Tweet) (c : List Char) :
    ((l.map fun cg => (cg.1, f cg.2)).lookup c) = (l.lookup c).map f := by
  induction l with
  | nil => simp [List.lookup]
  | cons kg rest ih =>
    obtain ⟨k', g⟩ := kg
    by_cases hc : c = k'
    · subst hc
      simp [List.lookup]
    · simp only [List.map_cons, List.lookup, beq_false_of_ne hc]
      exact ih

/-- Sorting a bucket permutes it. -/
theorem sortThread_perm (parse : List Char → Option Nat) (l : List Tweet) :
    (sortThread parse l).Perm l := by
  unfold sortThread
  split
  · exact List.mergeSort_perm l _
  · exact List.Perm.refl l

/-- When some member's date fails to parse, the bucket keeps its original order (the `except: pass` fallback). -/
theorem sortThread_eq_of_fail (parse : List Char → Option Nat) (l : List Tweet)
    (h : ∃ t ∈ l, parse t.created_at = none) : sortThread parse l = l := by
  unfold sortThread
  rw [if_neg]
  rcases h with ⟨t, ht, hn⟩
  intro hall
  rw [List.all_eq_true] at hall
  have h2 := hall t ht
  rw [hn] at h2
  cases h2

/-- When every member's date parses, the bucket is sorted by parsed timestamp. -/
theorem sortThread_sorted (parse : List Char → Option Nat) (l : List Tweet)
    (h : ∀ t ∈ l, (parse t.created_at).isSome) :
    (sortThread parse l).Pairwise fun a b => sortKey parse a ≤ sortKey parse b := by
  unfold sortThread
  rw [if_pos (by rw [List.all_eq_true]; intro t ht; simpa using h t ht)]
  have hp := @List.sorted_mergeSort _
    (fun a b => decide (sortKey parse a ≤ sortKey parse b))
    (fun a b c hab hbc => by
      simp only [decide_eq_true_eq] at hab hbc ⊢
      omega)
    (fun a b => by
      simp only [Bool.or_eq_true, decide_eq_true_eq]
      omega) l
  exact hp.imp fun hab => of_decide_eq_true hab

/-- Sorting every bucket preserves the multiset of all bucketed tweets. -/
theorem flatMap_map_sort_perm (parse : List Char → Option Nat)
    (l : List (List Char × List Tweet)) :
    ((l.map fun cg => (cg.1, sortThread parse cg.2)).flatMap Prod.snd).Perm
      (l.flatMap Prod.snd) := by
  induction l with
  | nil => simp
  | cons kg rest ih =>
    simp only [List.map_cons, List.flatMap_cons]
    exact List.Perm.append (sortThread_perm parse kg.2) ih

/-- C2: `reconstruct_threads` is a partition: bucket keys are distinct,
the buckets jointly contain exactly the input tweets, each bucket for key
`c` is a permutation of the input tweets with `conversation_id = c` (so
every input tweet appears in exactly one bucket); a bucket in which every
member timestamp parses is non-decreasing by parsed timestamp, and a
bucket with a failing member equals the conversation-filtered input in
its original relative order. -/
theorem reconstruct_threads_partition_sorted (parse : List Char → Option Nat)
    (tweets : List Tweet) :
    ((reconstruct_threads parse tweets).map Prod.fst).Nodup ∧
    (((reconstruct_threads parse tweets).flatMap Prod.snd).Perm tweets) ∧
    (∀ c g, (c, g) ∈ reconstruct_threads parse tweets →
      g.Perm (tweets.filter fun t => t.conversation_id == c) ∧
      ((∀ t ∈ g, (parse t.created_at).isSome) →
        g.Pairwise fun a b => sortKey parse a ≤ sortKey parse b) ∧
      ((∃ t ∈ g, parse t.created_at = none) →
        g = tweets.filter fun t => t.conversation_id == c)) := by
  have hkeys : (reconstruct_threads parse tweets).map Prod.fst =
      (groupByConv tweets).map Prod.fst := by
    unfold reconstruct_threads
    rw [List.map_map]
    rfl
  have hnd : ((reconstruct_threads parse tweets).map Prod.fst).Nodup := by
    rw [hkeys]
    exact keys_groupFold tweets [] (by simp)
  refine ⟨hnd, ?_, ?_⟩
  · refine List.Perm.trans (flatMap_map_sort_perm parse (groupByConv tweets)) ?_
    have := joinVals_groupFold tweets []
    simpa using this
  · intro c g hmem
    have hlook : (reconstruct_threads parse tweets).lookup c = some g :=
      (mem_iff_lookup hnd c g).1 hmem
    unfold reconstruct_threads at hlook
    rw [lookup_map_value, lookup_groupByConv] at hlook
    have hfg : g = sortThread parse (tweets.filter fun t => t.conversation_id == c) := by
      cases hfil : tweets.filter fun t => t.conversation_id == c with
      | nil =>
        rw [hfil] at hlook
        cases hlook
      | cons x xs =>
        rw [hfil] at hlook
        have h1 : mergeOpt none (x :: xs) = some (x :: xs) := rfl
        rw [h1] at hlook
        simp only [Option.map_some'] at hlook
        exact (Option.some_inj.1 hlook).symm
    subst hfg
    refine ⟨sortThread_perm parse _, ?_, ?_⟩
    · intro hall
      apply sortThread_sorted
      intro t ht
      exact hall t ((sortThread_perm parse _).mem_iff.2 ht)
    · intro hex
      apply sortThread_eq_of_fail
      rcases hex with ⟨t, ht, hn⟩
      exact ⟨t, (sortThread_perm parse _).mem_iff.1 ht, hn⟩

/-- A concrete parse function for the C2 witness: `"a"` and `"b"` parse, everything else fails. -/
def parseW : List Char → Option Nat := fun s =>
  if s = chars "a" then some 1 else if s = chars "b" then some 2 else none

/-- Witness tweet 1 (conversation c, timestamp "a"). -/
def tweetW1 : Tweet :=
  .mk (chars "1") (chars "t1") (chars "a") (chars "c") ⟨chars "u", chars "U"⟩
    (chars "1") 0 0 0 none none none

/-- Witness tweet 2 (conversation c, timestamp "b"). -/
def tweetW2 : Tweet :=
  .mk (chars "2") (chars "t2") (chars "b") (chars "c") ⟨chars "u", chars "U"⟩
    (chars "1") 0 0 0 none none none

/-- Witness tweet 3 (conversation d, unparseable timestamp). -/
def tweetW3 : Tweet :=
  .mk (chars "3") (chars "t3") (chars "x") (chars "d") ⟨chars "u", chars "U"⟩
    (chars "1") 0 0 0 none none none

/-- Witness tweet 4 (conversation d, unparseable timestamp). -/
def tweetW4 : Tweet :=
  .mk (chars "4") (chars "t4") (chars "y") (chars "d") ⟨chars "u", chars "U"⟩
    (chars "1") 0 0 0 none none none

/-- The witness batch: two conversations, one sortable, one not. -/
def tweetsW : List Tweet := [tweetW1, tweetW2, tweetW3, tweetW4]

/-- The sortable witness bucket is already in timestamp order. -/
theorem sortThreadW1 : sortThread parseW [tweetW1, tweetW2] = [tweetW1, tweetW2] := by
  unfold sortThread
  rw [if_pos (by decide)]
  refine List.mergeSort_of_sorted ?_
  constructor
  · intro b hb
    rcases List.mem_singleton.1 hb with rfl
    rfl
  · exact List.pairwise_singleton _ _

/-- The unparseable witness bucket keeps its original order. -/
theorem sortThreadW2 : sortThread parseW [tweetW3, tweetW4] = [tweetW3, tweetW4] := by
  unfold sortThread
  rw [if_neg (by decide)]

/-- Concrete evaluation of `reconstruct_threads` on the witness batch. -/
theorem reconstructW : reconstruct_threads parseW tweetsW =
    [(chars "c", [tweetW1, tweetW2]), (chars "d", [tweetW3, tweetW4])] := by
  unfold reconstruct_threads
  rw [show groupByConv tweetsW =
    [(chars "c", [tweetW1, tweetW2]), (chars "d", [tweetW3, tweetW4])] from rfl]
  simp only [List.map_cons, List.map_nil]
  rw [sortThreadW1, sortThreadW2]

/-- Witness instantiation of `reconstruct_threads_partition_sorted`. -/
theorem reconstruct_threads_partition_sorted_witness :
    ((reconstruct_threads parseW tweetsW).map Prod.fst).Nodup ∧
    ((reconstruct_threads parseW tweetsW).flatMap Prod.snd).Perm tweetsW ∧
    ([tweetW1, tweetW2].Perm (tweetsW.filter fun t => t.conversation_id == chars "c") ∧
     [tweetW1, tweetW2].Pairwise fun a b => sortKey parseW a ≤ sortKey parseW b) ∧
    [tweetW3, tweetW4] = tweetsW.filter fun t => t.conversation_id == chars "d" := by
  have h := reconstruct_threads_partition_sorted parseW tweetsW
  have hmem1 : (chars "c", [tweetW1, tweetW2]) ∈ reconstruct_threads parseW tweetsW := by
    rw [reconstructW]; exact List.mem_cons_self _ _
  have hmem2 : (chars "d", [tweetW3, tweetW4]) ∈ reconstruct_threads parseW tweetsW := by
    rw [reconstructW]; exact List.mem_cons_of_mem _ (List.mem_cons_self _ _)
  have hc := h.2.2 (chars "c") [tweetW1, tweetW2] hmem1
  have hd := h.2.2 (chars "d") [tweetW3, tweetW4] hmem2
  refine ⟨h.1, h.2.1, ⟨hc.1, hc.2.1 ?_⟩, hd.2.2 ⟨tweetW3, List.mem_cons_self _ _, rfl⟩⟩
  intro t ht
  rcases List.mem_cons.1 ht with rfl | ht2
  · rfl
  · rcases List.mem_cons.1 ht2 with rfl | ht3
    · rfl
    · exact absurd ht3 (List.not_mem_nil t)

/-- Pairing every element with a value and projecting back is the identity. -/
theorem map_fst_pair (f : Tweet → Option (List Char)) (l : List Tweet) :
    (l.map fun t => (t, f t)).map Prod.fst = l := by
  induction l with
  | nil => rfl
  | cons t ts ih => simp only [List.map_cons, ih]

/-- A processed bucket pairs exactly the tweets of the bucket, in order. -/
theorem presummaryGroup_map_fst (llm : List Char → List Char → Except Unit (List Char))
    (config : Config) (thread : List Tweet) :
    (presummaryGroup llm config thread).map Prod.fst = thread := by
  unfold presummaryGroup
  split
  · exact map_fst_pair _ _
  · split
    · exact map_fst_pair (fun _ => summarize_thread llm thread) thread
    · exact map_fst_pair (fun _ => none) thread

/-- Within one processed bucket every pair carries the same summary value. -/
theorem presummaryGroup_snd_const (llm : List Char → List Char → Except Unit (List Char))
    (config : Config) (thread : List Tweet) :
    ∀ p ∈ presummaryGroup llm config thread, ∀ q ∈ presummaryGroup llm config thread,
      p.2 = q.2 := by
  unfold presummaryGroup
  split
  · next hlen =>
    obtain ⟨t, rfl⟩ := List.length_eq_one.1 hlen
    intro p hp q hq
    rcases List.mem_singleton.1 hp with rfl
    rcases List.mem_singleton.1 hq with rfl
    rfl
  · split
    · intro p hp q hq
      rcases List.mem_map.1 hp with ⟨t, -, rfl⟩
      rcases List.mem_map.1 hq with ⟨u, -, rfl⟩
      rfl
    · intro p hp q hq
      rcases List.mem_map.1 hp with ⟨t, -, rfl⟩
      rcases List.mem_map.1 hq with ⟨u, -, rfl⟩
      rfl

/-- Each entry of `reconstruct_threads` is the sorted conversation filter of the input. -/
theorem reconstruct_entry_eq {parse : List Char → Option Nat} {tweets : List Tweet}
    {c : List Char} {g : List Tweet}
    (hmem : (c, g) ∈ reconstruct_threads parse tweets) :
    g = sortThread parse (tweets.filter fun t => t.conversation_id == c) := by
  have hnd : ((reconstruct_threads parse tweets).map Prod.fst).Nodup := by
    rw [show (reconstruct_threads parse tweets).map Prod.fst =
        (groupByConv tweets).map Prod.fst by
      unfold reconstruct_threads; rw [List.map_map]; rfl]
    exact keys_groupFold tweets [] (by simp)
  have hlook := (mem_iff_lookup hnd c g).1 hmem
  unfold reconstruct_threads at hlook
  rw [lookup_map_value, lookup_groupByConv] at hlook
  cases hfil : tweets.filter fun t => t.conversation_id == c with
  | nil =>
    rw [hfil] at hlook
    cases hlook
  | cons x xs =>
    rw [hfil] at hlook
    have h1 : mergeOpt none (x :: xs) = some (x :: xs) := rfl
    rw [h1] at hlook
    simp only [Option.map_some'] at hlook
    exact (Option.some_inj.1 hlook).symm

/-- Members of a reconstructed bucket carry the key of that bucket as conversation id. -/
theorem conv_of_mem_reconstruct {parse : List Char → Option Nat} {tweets : List Tweet}
    {c : List Char} {g : List Tweet}
    (hmem : (c, g) ∈ reconstruct_threads parse tweets) :
    ∀ t ∈ g, t.conversation_id = c := by
  intro t ht
  rw [reconstruct_entry_eq hmem] at ht
  have ht2 := (sortThread_perm parse _).mem_iff.1 ht
  have := (List.mem_filter.1 ht2).2
  exact eq_of_beq this

/-- C10: `presummary_tweets` returns exactly one (tweet, summary) pair per
input tweet—the first components are a permutation of the input, nothing
dropped or duplicated—and any two pairs whose tweets share a
conversation id carry the identical summary value (in particular all
members of a multi-tweet conversation do).  Quantified over the parse
function, the LLM provider and the configuration. -/
theorem presummary_tweets_one_pair_per_tweet (parse : List Char → Option Nat)
    (llm : List Char → List Char → Except Unit (List Char))
    (config : Config) (tweets : List Tweet) :
    (((presummary_tweets parse llm config tweets).map Prod.fst).Perm tweets) ∧
    (∀ p ∈ presummary_tweets parse llm config tweets,
     ∀ q ∈ presummary_tweets parse llm config tweets,
      p.1.conversation_id = q.1.conversation_id → p.2 = q.2) := by
  unfold presummary_tweets
  split
  · constructor
    · rw [map_fst_pair]
    · intro p hp q hq _
      rcases List.mem_map.1 hp with ⟨t, -, rfl⟩
      rcases List.mem_map.1 hq with ⟨u, -, rfl⟩
      rfl
  · constructor
    · rw [List.map_flatMap]
      simp only [presummaryGroup_map_fst]
      refine List.Perm.trans ?_
        (List.Perm.trans (flatMap_map_sort_perm parse (groupByConv tweets))
          (by simpa using joinVals_groupFold tweets []))
      unfold reconstruct_threads
      rw [List.flatMap_map]
    · intro p hp q hq hconv
      rcases List.mem_flatMap.1 hp with ⟨cg1, hcg1, hp1⟩
      rcases List.mem_flatMap.1 hq with ⟨cg2, hcg2, hq1⟩
      have hp2 : p.1 ∈ cg1.2 := by
        have := List.mem_map_of_mem Prod.fst hp1
        rwa [presummaryGroup_map_fst] at this
      have hq2 : q.1 ∈ cg2.2 := by
        have := List.mem_map_of_mem Prod.fst hq1
        rwa [presummaryGroup_map_fst] at this
      have hc1 : p.1.conversation_id = cg1.1 := conv_of_mem_reconstruct hcg1 p.1 hp2
      have hc2 : q.1.conversation_id = cg2.1 := conv_of_mem_reconstruct hcg2 q.1 hq2
      have hceq : cg1.1 = cg2.1 := by rw [← hc1, ← hc2, hconv]
      have hgeq : cg1.2 = cg2.2 := by
        rw [reconstruct_entry_eq (c := cg1.1) (g := cg1.2) hcg1,
          reconstruct_entry_eq (c := cg2.1) (g := cg2.2) hcg2, hceq]
      rw [hgeq] at hp1
      exact presummaryGroup_snd_const llm config cg2.2 p hp1 q hq1

/-- Every candidate of a tweet carries that tweet id and engagement, and
takes its URL from a photo (full-size URL) or a video (preview URL). -/
theorem tweetImageCandidates_fields (t : Tweet) :
    ∀ img ∈ tweetImageCandidates t,
      img.engagement = get_engagement_score t ∧ img.tweet_id = t.id ∧
      ∃ m ∈ t.media.getD [],
        (m.type = chars "photo" ∧ img.url = m.url ∧ img.is_video_preview = false) ∨
        (m.type = chars "video" ∧ img.url = m.preview_url ∧ img.is_video_preview = true) := by
  intro img h
  unfold tweetImageCandidates at h
  rcases List.mem_filterMap.1 h with ⟨m, hm, hsome⟩
  split at hsome
  · next hphoto =>
    cases hsome
    exact ⟨rfl, rfl, m, hm, Or.inl ⟨hphoto, rfl, rfl⟩⟩
  · split at hsome
    · next hvideo =>
      cases hsome
      exact ⟨rfl, rfl, m, hm, Or.inr ⟨hvideo, rfl, rfl⟩⟩
    · cases hsome

/-- Transitivity of the descending-engagement comparison. -/
theorem engGe_trans : ∀ a b c : PrioritizedImage, engGe a b → engGe b c → engGe a c := by
  intro a b c hab hbc
  simp only [engGe, decide_eq_true_eq] at hab hbc ⊢
  omega

/-- Totality of the descending-engagement comparison. -/
theorem engGe_total : ∀ a b : PrioritizedImage, engGe a b || engGe b a := by
  intro a b
  simp only [engGe, Bool.or_eq_true, decide_eq_true_eq]
  omega

/-- Sorting the candidates of one tweet is the identity (all share one engagement). -/
theorem inner_sort_eq (t : Tweet) :
    (tweetImageCandidates t).mergeSort engGe = tweetImageCandidates t := by
  apply List.mergeSort_of_sorted
  apply List.pairwise_of_forall_mem_list
  intro a ha b hb
  have hea := (tweetImageCandidates_fields t a ha).1
  have heb := (tweetImageCandidates_fields t b hb).1
  simp only [engGe, hea, heb, decide_eq_true_eq]
  omega

/-- The candidate pool is, in input order, each tweet contributing its first `max_per_tweet` candidates. -/
theorem pool_eq_flatMap_take (tweets : List Tweet) (mpt : Nat) :
    prioritizedImagesPool tweets mpt =
      tweets.flatMap fun t => (tweetImageCandidates t).take mpt := by
  unfold prioritizedImagesPool
  simp only [inner_sort_eq]

/-- With distinct tweet ids, the pool holds at most `max_per_tweet` entries per id. -/
theorem pool_countP_le (mpt : Nat) (s : List Char) :
    ∀ tweets : List Tweet, (tweets.map Tweet.id).Nodup →
      ((tweets.flatMap fun t => (tweetImageCandidates t).take mpt).countP
        fun img => img.tweet_id == s) ≤ mpt := by
  intro tweets
  induction tweets with
  | nil => intro _; simp
  | cons t ts ih =>
    intro hnd
    simp only [List.map_cons, List.nodup_cons] at hnd
    simp only [List.flatMap_cons, List.countP_append]
    by_cases hs : t.id = s
    · subst hs
      have h0 : ((ts.flatMap fun u => (tweetImageCandidates u).take mpt).countP
          fun img => img.tweet_id == t.id) = 0 := by
        rw [List.countP_eq_zero]
        intro img himg
        rcases List.mem_flatMap.1 himg with ⟨u, hu, himgu⟩
        have hid := (tweetImageCandidates_fields u img (List.mem_of_mem_take himgu)).2.1
        simp only [hid, beq_iff_eq]
        intro hequ
        exact hnd.1 (hequ ▸ List.mem_map_of_mem Tweet.id hu)
      have h1 : (((tweetImageCandidates t).take mpt).countP
          fun img => img.tweet_id == t.id) ≤ mpt :=
        le_trans (List.countP_le_length _) (by rw [List.length_take]; omega)
      omega
    · have h0 : (((tweetImageCandidates t).take mpt).countP
          fun img => img.tweet_id == s) = 0 := by
        rw [List.countP_eq_zero]
        intro img himg
        have hid := (tweetImageCandidates_fields t img (List.mem_of_mem_take himg)).2.1
        simp only [hid, beq_iff_eq]
        exact hs
      rw [h0]
      simpa using ih hnd.2

/-- C8: `prioritize_images` (with the count parameters as naturals, as
used by the defaults): the output has at most `max_total` entries; when
input tweet ids are distinct no tweet id contributes more than
`max_per_tweet` entries; the selection is sorted by source-tweet
engagement descending, and within each engagement tie it is a prefix of
the input-ordered pool (stability); every entry originates from a tweet
of the input, photos contributing `url` and videos contributing
`preview_url` (never `video_url`). -/
theorem prioritize_images_spec (tweets : List Tweet) (max_total max_per_tweet : Nat) :
    (prioritize_images tweets max_total max_per_tweet =
      (selected_images tweets max_total max_per_tweet).map fun img =>
        (img.tweet_id, img.url)) ∧
    ((prioritize_images tweets max_total max_per_tweet).length ≤ max_total) ∧
    ((tweets.map Tweet.id).Nodup → ∀ s,
      ((selected_images tweets max_total max_per_tweet).countP
        fun img => img.tweet_id == s) ≤ max_per_tweet) ∧
    ((selected_images tweets max_total max_per_tweet).Pairwise
      fun a b => b.engagement ≤ a.engagement) ∧
    (prioritizedImagesPool tweets max_per_tweet =
      tweets.flatMap fun t => (tweetImageCandidates t).take max_per_tweet) ∧
    (∀ e : Int, ((selected_images tweets max_total max_per_tweet).filter
        fun img => img.engagement == e) <+:
      ((prioritizedImagesPool tweets max_per_tweet).filter
        fun img => img.engagement == e)) ∧
    (∀ img ∈ selected_images tweets max_total max_per_tweet,
      ∃ t ∈ tweets, img.tweet_id = t.id ∧ img.engagement = get_engagement_score t ∧
        ∃ m ∈ t.media.getD [],
          (m.type = chars "photo" ∧ img.url = m.url ∧ img.is_video_preview = false) ∨
          (m.type = chars "video" ∧ img.url = m.preview_url ∧
            img.is_video_preview = true)) := by
  have hsortperm : ((prioritizedImagesPool tweets max_per_tweet).mergeSort engGe).Perm
      (prioritizedImagesPool tweets max_per_tweet) :=
    List.mergeSort_perm _ _
  have hselsub : List.Sublist (selected_images tweets max_total max_per_tweet)
      ((prioritizedImagesPool tweets max_per_tweet).mergeSort engGe) := by
    unfold selected_images
    exact List.take_sublist _ _
  refine ⟨rfl, ?_, ?_, ?_, pool_eq_flatMap_take tweets max_per_tweet, ?_, ?_⟩
  · unfold prioritize_images selected_images
    rw [List.length_map, List.length_take]
    omega
  · intro hnd s
    calc ((selected_images tweets max_total max_per_tweet).countP
          fun img => img.tweet_id == s)
        ≤ (((prioritizedImagesPool tweets max_per_tweet).mergeSort engGe).countP
            fun img => img.tweet_id == s) := hselsub.countP_le (p := fun img => img.tweet_id == s)
      _ = ((prioritizedImagesPool tweets max_per_tweet).countP
            fun img => img.tweet_id == s) := hsortperm.countP_eq _
      _ ≤ max_per_tweet := by
          rw [pool_eq_flatMap_take]
          exact pool_countP_le max_per_tweet s tweets hnd
  · have hs := @List.sorted_mergeSort _ engGe engGe_trans engGe_total
      (prioritizedImagesPool tweets max_per_tweet)
    have hp := hs.sublist hselsub
    refine hp.imp fun hab => ?_
    simpa only [engGe, decide_eq_true_eq] using hab
  · intro e
    have hXfil : (((prioritizedImagesPool tweets max_per_tweet).mergeSort engGe).filter
        fun img => img.engagement == e) =
        ((prioritizedImagesPool tweets max_per_tweet).filter
          fun img => img.engagement == e) := by
      have hXall : ∀ img ∈ (prioritizedImagesPool tweets max_per_tweet).filter
          (fun img => img.engagement == e), img.engagement = e := by
        intro img himg
        exact eq_of_beq (List.mem_filter.1 himg).2
      have hXpair : ((prioritizedImagesPool tweets max_per_tweet).filter
          fun img => img.engagement == e).Pairwise fun a b => engGe a b := by
        apply List.pairwise_of_forall_mem_list
        intro a ha b hb
        simp only [engGe, hXall a ha, hXall b hb, decide_eq_true_eq]
        omega
      have hXsub : List.Sublist
          ((prioritizedImagesPool tweets max_per_tweet).filter
            fun img => img.engagement == e)
          ((prioritizedImagesPool tweets max_per_tweet).mergeSort engGe) :=
        List.sublist_mergeSort engGe_trans engGe_total hXpair (List.filter_sublist _)
      have hXsub2 : List.Sublist
          ((prioritizedImagesPool tweets max_per_tweet).filter
            fun img => img.engagement == e)
          (((prioritizedImagesPool tweets max_per_tweet).mergeSort engGe).filter
            fun img => img.engagement == e) := by
        have h2 := hXsub.filter fun img => img.engagement == e
        rwa [List.filter_eq_self.2 (fun a ha => (List.mem_filter.1 ha).2)] at h2
      exact (hXsub2.eq_of_length ((hsortperm.filter _).length_eq).symm).symm
    refine hXfil ▸ (List.take_prefix max_total _).filter _
  · intro img himg
    have h1 : img ∈ prioritizedImagesPool tweets max_per_tweet :=
      hsortperm.mem_iff.1 (hselsub.mem himg)
    rw [pool_eq_flatMap_take] at h1
    rcases List.mem_flatMap.1 h1 with ⟨t, ht, himgt⟩
    have hf := tweetImageCandidates_fields t img (List.mem_of_mem_take himgt)
    exact ⟨t, ht, hf.2.1, hf.1, hf.2.2⟩

/-- Witness tweet with a photo and a video, engagement 10. -/
def tweetC8a : Tweet :=
  .mk (chars "1") (chars "one") [] (chars "1") ⟨chars "u", chars "U"⟩ (chars "9")
    0 0 10
    (some [⟨chars "photo", chars "u1", 100, 100, chars "p1", none, none⟩,
           ⟨chars "video", chars "u2", 100, 100, chars "p2", some (chars "v2"), some 5⟩])
    none none

/-- Witness tweet with one photo, engagement 3. -/
def tweetC8b : Tweet :=
  .mk (chars "2") (chars "two") [] (chars "2") ⟨chars "w", chars "W"⟩ (chars "9")
    0 0 3
    (some [⟨chars "photo", chars "u3", 100, 100, chars "p3", none, none⟩])
    none none

/-- The witness batch for image prioritization. -/
def tweetsC8 : List Tweet := [tweetC8a, tweetC8b]

/-- Expected first selected image (photo of tweet 1). -/
def imgAC8 : PrioritizedImage :=
  { tweet_id := chars "1", url := chars "u1", type := chars "photo", engagement := 10 }

/-- Expected second selected image (video preview of tweet 1). -/
def imgBC8 : PrioritizedImage :=
  { tweet_id := chars "1", url := chars "p2", type := chars "video", engagement := 10,
    is_video_preview := true }

/-- Expected third selected image (photo of tweet 2). -/
def imgCC8 : PrioritizedImage :=
  { tweet_id := chars "2", url := chars "u3", type := chars "photo", engagement := 3 }

/-- Concrete evaluation of the candidate pool on the witness batch. -/
theorem poolC8 : prioritizedImagesPool tweetsC8 3 = [imgAC8, imgBC8, imgCC8] := by
  rw [pool_eq_flatMap_take]
  rfl

/-- The witness pool is already sorted by engagement descending. -/
theorem sortC8 : [imgAC8, imgBC8, imgCC8].mergeSort engGe = [imgAC8, imgBC8, imgCC8] :=
  List.mergeSort_of_sorted (by decide)

/-- Concrete evaluation of the selection on the witness batch. -/
theorem selC8 : selected_images tweetsC8 15 3 = [imgAC8, imgBC8, imgCC8] := by
  unfold selected_images
  rw [poolC8, sortC8]
  rfl

/-- Witness instantiation of `prioritize_images_spec`: the video of the highest-engagement tweet is selected through its preview URL. -/
theorem prioritize_images_spec_witness :
    (tweetsC8.map Tweet.id).Nodup ∧
    (∀ s, ((selected_images tweetsC8 15 3).countP fun img => img.tweet_id == s) ≤ 3) ∧
    imgBC8 ∈ selected_images tweetsC8 15 3 ∧
    (∃ t ∈ tweetsC8, imgBC8.tweet_id = t.id ∧
      imgBC8.engagement = get_engagement_score t ∧
      ∃ m ∈ t.media.getD [],
        (m.type = chars "photo" ∧ imgBC8.url = m.url ∧ imgBC8.is_video_preview = false) ∨
        (m.type = chars "video" ∧ imgBC8.url = m.preview_url ∧
          imgBC8.is_video_preview = true)) := by
  have hmem : imgBC8 ∈ selected_images tweetsC8 15 3 := by
    rw [selC8]
    exact List.mem_cons_of_mem _ (List.mem_cons_self _ _)
  exact ⟨by decide, (prioritize_images_spec tweetsC8 15 3).2.2.1 (by decide),
    hmem, (prioritize_images_spec tweetsC8 15 3).2.2.2.2.2.2 imgBC8 hmem⟩

/-- An always-failing LLM provider, for the C10 witness. -/
def llmW : List Char → List Char → Except Unit (List Char) := fun _ _ => .error ()

/-- Concrete evaluation of `presummary_tweets` on the witness batch: both
conversations are multi-tweet, pre-summarization triggers, the provider
fails, and every member of each conversation gets the same `none`. -/
theorem presummaryW : presummary_tweets parseW llmW {} tweetsW =
    [(tweetW1, none), (tweetW2, none), (tweetW3, none), (tweetW4, none)] := by
  unfold presummary_tweets
  rw [if_neg (by decide)]
  rw [reconstructW]
  rfl

/-- Witness instantiation of `presummary_tweets_one_pair_per_tweet`. -/
theorem presummary_tweets_one_pair_per_tweet_witness :
    ((presummary_tweets parseW llmW {} tweetsW).map Prod.fst).Perm tweetsW ∧
    (tweetW1, (none : Option (List Char))) ∈ presummary_tweets parseW llmW {} tweetsW ∧
    (tweetW2, (none : Option (List Char))) ∈ presummary_tweets parseW llmW {} tweetsW ∧
    (tweetW1, (none : Option (List Char))).2 = (tweetW2, (none : Option (List Char))).2 := by
  have hm1 : (tweetW1, (none : Option (List Char))) ∈
      presummary_tweets parseW llmW {} tweetsW := by
    rw [presummaryW]
    exact List.mem_cons_self _ _
  have hm2 : (tweetW2, (none : Option (List Char))) ∈
      presummary_tweets parseW llmW {} tweetsW := by
    rw [presummaryW]
    exact List.mem_cons_of_mem _ (List.mem_cons_self _ _)
  exact ⟨(presummary_tweets_one_pair_per_tweet parseW llmW {} tweetsW).1, hm1, hm2,
    (presummary_tweets_one_pair_per_tweet parseW llmW {} tweetsW).2 _ hm1 _ hm2 rfl⟩
